import Mathlib

/-!
# Verification of the personal-agentic-assistant orchestration core

Shallow embedding of the Go orchestration pipeline
(`services/core-go`): the Chunker (`chunkText`), the Retrieval
Compiler (`AskKnowledgeBase` / `buildSystemPrompt`), the similarity
store gateway (`Search` with its owner-scope filter), the Agent Loop
(`runLoop` / `validateCreateTaskArgs` / `streamSummary`), and the
conversational endpoint's caller-identifier defaulting
(`chatHandler`).  Pure functions are translated directly; channel
streams become lists of chunks; the external gateways (Ollama, Qdrant,
Postgres) become explicit parameters and modelled stores.
-/

namespace Assistant

/-! ## Whitespace and trimming (Go `strings.TrimSpace` / `unicode.IsSpace`) -/

/-- Code points accepted by Go's `unicode.IsSpace`: the Latin-1 fast
path (`\t \n \v \f \r` space, NEL, NBSP) plus the `White_Space`
property code points above Latin-1. -/
def goSpaceCodes : List Nat :=
  [0x9, 0xA, 0xB, 0xC, 0xD, 0x20, 0x85, 0xA0, 0x1680,
   0x2000, 0x2001, 0x2002, 0x2003, 0x2004, 0x2005, 0x2006, 0x2007,
   0x2008, 0x2009, 0x200A, 0x2028, 0x2029, 0x202F, 0x205F, 0x3000]

/-- `unicode.IsSpace` on a single code point. -/
def isSpaceChar (c : Char) : Bool := goSpaceCodes.contains c.toNat

/-- Go `strings.TrimSpace`, at code-point granularity: drop leading
and trailing white space. -/
def trimChars (l : List Char) : List Char :=
  ((l.dropWhile isSpaceChar).reverse.dropWhile isSpaceChar).reverse

/-- `strings.TrimSpace` on strings (a string is its list of code points). -/
def trimString (s : String) : String := String.mk (trimChars s.data)

/-! ## Chunker (`chunkText` in `cmd/api/main.go`)

The Go function converts the trimmed text to `[]rune` and walks windows
`[start, start+size)` advancing by `step = size - overlap` (forced to
`1` when `size - overlap <= 0`, written `max 1 step` here), trimming
each window and skipping windows that are empty after trimming; the
loop stops once a window reached the end of the rune slice.

The loop is embedded with an explicit iteration budget (`fuel`): each
iteration advances `start` by at least one, so `runes.length - start`
iterations always suffice, which `chunkChars` supplies. -/

def chunkLoop (runes : List Char) (size step : Nat) : Nat → Nat → List (List Char)
  | 0, _ => []
  | fuel + 1, start =>
    if start < runes.length then
      let window := trimChars ((runes.drop start).take size)
      let rest :=
        if start + size < runes.length then
          chunkLoop runes size step fuel (start + max 1 step)
        else []
      if window = [] then rest else window :: rest
    else []

/-- `chunkText`, at the level of code-point lists. -/
def chunkChars (l : List Char) (size overlap : Nat) : List (List Char) :=
  let runes := trimChars l
  chunkLoop runes size (size - overlap) runes.length 0

/-- `chunkText(text, size, overlap)` from `cmd/api/main.go`. -/
def chunkText (text : String) (size overlap : Nat) : List String :=
  (chunkChars text.data size overlap).map String.mk

/-- `chunkSize` constant from `cmd/api/main.go`. -/
def chunkSize : Nat := 400

/-- `chunkOverlap` constant from `cmd/api/main.go`. -/
def chunkOverlap : Nat := 50

/-- The reconstruction the spec describes for the Chunker round-trip
property: keep the first window whole and drop the first
`overlap`-many code points of every later window, then concatenate. -/
def dropOverlapConcat (overlap : Nat) : List (List Char) → List Char
  | [] => []
  | w :: ws => w ++ (ws.map (List.drop overlap)).flatten

/-- `dropOverlapConcat` on the strings the Chunker returns. -/
def dropOverlapJoin (overlap : Nat) (ws : List String) : String :=
  String.mk (dropOverlapConcat overlap (ws.map String.data))

/-! ## Tool-argument payloads and validation
(`internal/agent/task_agent.go`)

A raw tool-argument payload (`json.RawMessage` holding a JSON object)
is embedded as the three fields of the `createTaskArgs` target struct,
each either absent or a JSON string or a JSON integer.
`json.Unmarshal` leaves an absent field at its Go zero value (`""` /
`0`) and fails on a value of the wrong type. -/

/-- A JSON scalar as far as the `create_task` argument object is
concerned: the model sends strings and numbers for these fields. -/
inductive JsonVal
  | jstr (s : String)
  | jint (n : Int)
  deriving DecidableEq, Repr

/-- The raw `create_task` argument object: each field of the
`createTaskArgs` struct is absent or holds a JSON scalar. -/
structure RawArgs where
  title : Option JsonVal
  description : Option JsonVal
  priority : Option JsonVal
  deriving DecidableEq, Repr

/-- The Go struct `createTaskArgs` after a successful `json.Unmarshal`:
`Title string`, `Description string`, `Priority int`. -/
structure CreateTaskArgs where
  title : String
  description : String
  priority : Int
  deriving DecidableEq, Repr

/-- `json.Unmarshal` of one field into a Go `string`: absent keeps the
zero value `""`, a JSON string is taken as is, a JSON number fails. -/
def unmarshalString : Option JsonVal → Except String String
  | none => .ok ""
  | some (.jstr s) => .ok s
  | some (.jint _) => .error "unmarshal args"

/-- `json.Unmarshal` of one field into a Go `int`: absent keeps the
zero value `0`, a JSON integer is taken as is, a JSON string fails. -/
def unmarshalInt : Option JsonVal → Except String Int
  | none => .ok 0
  | some (.jint n) => .ok n
  | some (.jstr _) => .error "unmarshal args"

/-- `validateCreateTaskArgs` from `internal/agent/task_agent.go`:
unmarshal the raw payload (a type error on any field fails the whole
unmarshal), require a title that is non-empty after trimming, and
require `0 <= priority <= 3`. -/
def validateCreateTaskArgs (raw : RawArgs) : Except String CreateTaskArgs :=
  match unmarshalString raw.title with
  | .error e => .error e
  | .ok title =>
    match unmarshalString raw.description with
    | .error e => .error e
    | .ok description =>
      match unmarshalInt raw.priority with
      | .error e => .error e
      | .ok priority =>
        if trimString title = "" then
          .error "'title' is required and must be non-empty"
        else if priority < 0 || priority > 3 then
          .error "'priority' must be 0-3"
        else
          .ok { title := title, description := description, priority := priority }

/-- The `priority` enum the `create_task` tool schema declares
(`llm.CreateTaskTool.Parameters` in `internal/llm/ollama.go`, matching
`shared/tools/create_task.json`): a string, one of these values. -/
def createTaskPriorityEnum : List String := ["low", "medium", "high"]

/-- The default the `tasks` table gives `priority` when it is not
supplied (`init.sql`: `priority VARCHAR(20) DEFAULT 'medium'`). -/
def tasksTablePriorityDefault : String := "medium"

/-! ## Agent loop (`internal/agent/task_agent.go`)

The first-turn Ollama stream becomes a list of `LlmChunk`s; the event
channel becomes the returned list of `AgentEvent`s.  The Task Store
gateway (`TaskRepository.CreateTask`) and the second-turn summary call
(`llm.StreamChat` without tools) are external collaborators and enter
as parameters: `store` maps the validated title/description/priority
to the generated task identifier or a failure, `summary` is the
second-turn stream (or its startup failure).  `runLoop` also counts
the `CreateTask` invocations it performs (second component). -/

/-- `llm.Chunk`: one emission of the Ollama stream decoder — prose
text or a parsed tool call with its raw argument payload. -/
inductive LlmChunk
  | text (s : String)
  | toolCall (name : String) (args : RawArgs)
  deriving DecidableEq, Repr

/-- `AgentEvent`, the four event variants of the agentic loop. -/
inductive AgentEvent
  | text (s : String)
  | toolCall (tool : String) (args : CreateTaskArgs)
  | toolDone (tool : String) (taskID : Int)
  | error (errMsg : String)
  deriving DecidableEq, Repr

/-- Forward the text chunks of a stream as `Text` events, dropping
tool-call chunks (the `sc.Kind == llm.KindText` loop). -/
def textEvents (chunks : List LlmChunk) : List AgentEvent :=
  chunks.filterMap fun c =>
    match c with
    | .text s => some (.text s)
    | .toolCall _ _ => none

/-- `streamSummary`: if the second-turn stream fails to start, emit one
`Error` event; otherwise forward exactly the text chunks as `Text`
events (tool-call chunks of the summary stream are not forwarded). -/
def streamSummaryEvents (summary : Except String (List LlmChunk)) : List AgentEvent :=
  match summary with
  | .error e => [.error ("summary stream: " ++ e)]
  | .ok chunks => textEvents chunks

/-- Discriminator: is this event a `Text` event? -/
def isTextEv : AgentEvent → Bool
  | .text _ => true
  | _ => false

/-- Discriminator: is this event a `ToolCall` event? -/
def isToolCallEv : AgentEvent → Bool
  | .toolCall _ _ => true
  | _ => false

/-- Discriminator: is this event a `ToolDone` event? -/
def isToolDoneEv : AgentEvent → Bool
  | .toolDone _ _ => true
  | _ => false

/-- Discriminator: is this event an `Error` event? -/
def isErrorEv : AgentEvent → Bool
  | .error _ => true
  | _ => false

/-- Discriminator: is this event a `ToolCall` or a `ToolDone`? -/
def isToolEvent (e : AgentEvent) : Bool := isToolCallEv e || isToolDoneEv e

/-- `runLoop`: forward text chunks; at the first tool-call chunk
validate the arguments (failure: one `Error` event and stop), then
emit `ToolCall`, invoke the store (failure: one `Error` event and
stop), emit `ToolDone` with the generated identifier, run the summary
turn, and stop.  Returns the emitted events and the number of
`CreateTask` store calls made. -/
def runLoop (store : String → String → Int → Except String Int)
    (summary : Except String (List LlmChunk)) :
    List LlmChunk → List AgentEvent × Nat
  | [] => ([], 0)
  | .text s :: rest =>
      let r := runLoop store summary rest
      (.text s :: r.1, r.2)
  | .toolCall name raw :: _ =>
      match validateCreateTaskArgs raw with
      | .error e => ([.error ("tool arg validation: " ++ e)], 0)
      | .ok args =>
          match store args.title args.description args.priority with
          | .error e => ([.toolCall name args, .error ("create task: " ++ e)], 1)
          | .ok taskID =>
              (.toolCall name args :: .toolDone name taskID ::
                streamSummaryEvents summary, 1)

/-! ## Retrieval compiler (`cmd/api/main.go`) -/

/-- `vector.ScoredPoint`, restricted to the payload fields the
pipeline reads: the similarity score, the `user_id` owner scope, and
the `text` chunk content (the result of the Go type assertion
`payload["text"].(string)`, so `""` when the key is absent or not a
string). -/
structure ScoredPoint where
  score : ℚ
  userId : String
  text : String
  deriving DecidableEq, Repr

/-- `ragTopK = 3`. -/
def ragTopK : Nat := 3

/-- `ragScoreThreshold = 0.30` (scores are modelled as rationals). -/
def ragScoreThreshold : ℚ := mkRat 3 10

/-- Step 3a of `AskKnowledgeBase`: keep the points with
`p.Score >= ragScoreThreshold`. -/
def relevantPoints (points : List ScoredPoint) : List ScoredPoint :=
  points.filter fun p => ragScoreThreshold ≤ p.score

/-- The static boundary message `AskKnowledgeBase` returns without
calling the LLM when nothing passed the threshold. -/
def ragBoundaryMessage : String :=
  "This question is outside my knowledge boundary. " ++
    "I can only answer questions based on the topics I have been configured with."

/-- The numbering loop of `buildSystemPrompt`: `idx` starts at 1 and
each point is rendered as entry `[idx]`, with `"(empty chunk)"`
substituted for an empty text. -/
def numberedEntries : Nat → List ScoredPoint → List (Nat × String)
  | _, [] => []
  | idx, p :: ps =>
      (idx, if p.text = "" then "(empty chunk)" else p.text) ::
        numberedEntries (idx + 1) ps

/-- The numbered context entries of `buildSystemPrompt`, starting at `[1]`. -/
def contextEntries (points : List ScoredPoint) : List (Nat × String) :=
  numberedEntries 1 points

/-- One rendered context entry, `[n] text`. -/
def renderEntry (e : Nat × String) : String :=
  "[" ++ toString e.1 ++ "] " ++ e.2

/-- The context block of `buildSystemPrompt`: the rendered entries
joined by blank lines, or the safety-net placeholder when empty. -/
def contextBlockString (points : List ScoredPoint) : String :=
  let body := String.intercalate "\n\n" ((contextEntries points).map renderEntry)
  if body = "" then "(no relevant context found)" else body

/-- `systemPromptTmpl` up to the `%s` hole. -/
def systemPromptTmplPrefix : String :=
  "You are a topic-restricted assistant. You may ONLY answer questions that " ++
    "can be fully answered using the information provided in the CONTEXT " ++
    "section below.\n\n" ++
    "Do NOT use any general knowledge, training data, or information that is " ++
    "not present in the CONTEXT.\n" ++
    "If the user's question cannot be answered from the provided context, " ++
    "respond with exactly:\n" ++
    "\"This question is outside my knowledge boundary. I can only answer " ++
    "questions based on the topics I have been configured with.\"\n\n" ++
    "CONTEXT:\n"

/-- `systemPromptTmpl` after the `%s` hole. -/
def systemPromptTmplSuffix : String := "\n\nAnswer concisely and directly."

/-- `buildSystemPrompt`: the strict template with the numbered context
block substituted for `%s`. -/
def buildSystemPrompt (points : List ScoredPoint) : String :=
  systemPromptTmplPrefix ++ contextBlockString points ++ systemPromptTmplSuffix

/-- `llm.Message`: one role-tagged conversation entry. -/
structure ChatMessage where
  role : String
  content : String
  deriving DecidableEq, Repr

/-- What `AskKnowledgeBase` does after retrieval: either the static
boundary stream (no `StreamChat` call), or one `StreamChat` call with
the assembled messages and no tools. -/
inductive RagOutcome
  | boundary (msg : String)
  | inference (messages : List ChatMessage)
  deriving DecidableEq, Repr

/-- Number of `llm.StreamChat` calls an outcome performs. -/
def streamChatCalls : RagOutcome → Nat
  | .boundary _ => 0
  | .inference _ => 1

/-- Steps 3–4 of `AskKnowledgeBase`, given the points the similarity
search returned: threshold filtering, the static boundary shortcut,
prompt assembly and the single `StreamChat` call. -/
def askKnowledgeBase (points : List ScoredPoint) (query : String) : RagOutcome :=
  let relevant := relevantPoints points
  if relevant.isEmpty then
    .boundary ragBoundaryMessage
  else
    .inference [⟨"system", buildSystemPrompt relevant⟩, ⟨"user", query⟩]

/-! ## Similarity store gateway (`internal/vector/qdrant.go`, current
version with owner scoping)

`Search` attaches, for a non-empty `userID`, a `should` filter whose
conditions match `payload.user_id == "admin"` or `== userID`; an empty
`userID` attaches no filter.  The Qdrant service itself is an external
collaborator; `searchStore` models it from its documented contract
(and the `filterClause` doc comment): return the stored points that
satisfy the attached filter, ranked by score, at most `limit` many. -/

/-- The owner scopes `Search` puts in the `should` filter: `none` when
`userID` is empty (no filter), otherwise `admin` plus the caller. -/
def searchScopes (userID : String) : Option (List String) :=
  if userID = "" then none else some ["admin", userID]

/-- A `should` filter matches a point when its `user_id` payload field
equals any of the listed values (logical OR); no filter matches all. -/
def matchesFilter (f : Option (List String)) (p : ScoredPoint) : Bool :=
  match f with
  | none => true
  | some vs => vs.contains p.userId

/-- Insert one point into a list kept in descending score order. -/
def insertDesc (p : ScoredPoint) : List ScoredPoint → List ScoredPoint
  | [] => [p]
  | q :: qs => if q.score ≤ p.score then p :: q :: qs else q :: insertDesc p qs

/-- Rank points by descending similarity score. -/
def sortByScoreDesc : List ScoredPoint → List ScoredPoint
  | [] => []
  | p :: ps => insertDesc p (sortByScoreDesc ps)

/-- Modelled from the spec: the external Qdrant similarity store
executing the search request `Search` builds — the stored points that
satisfy the attached owner filter, ranked by score, truncated to
`limit`. -/
def searchStore (stored : List ScoredPoint) (limit : Nat) (userID : String) :
    List ScoredPoint :=
  (sortByScoreDesc (stored.filter (matchesFilter (searchScopes userID)))).take limit

/-! ## Conversational endpoint (`cmd/api/chat_handler.go`) -/

/-- The caller-identifier defaulting of `chatHandler`: trim the
request's `user_id` and replace an empty result by `"default"`. -/
def resolveUserID (raw : String) : String :=
  let u := trimString raw
  if u = "" then "default" else u

/-! # Theorems -/

/-! ## Trimming toolkit -/

theorem dropWhile_dropWhile (p : Char → Bool) (l : List Char) :
    (l.dropWhile p).dropWhile p = l.dropWhile p := by
  induction l with
  | nil => rfl
  | cons a t ih =>
      by_cases h : p a
      · simp [List.dropWhile_cons, h, ih]
      · simp [List.dropWhile_cons, h]

theorem head_false_of_dropWhile_eq_self (p : Char → Bool) (a : Char) (t : List Char)
    (hm : (a :: t).dropWhile p = a :: t) : p a = false := by
  by_cases h : p a
  · exfalso
    rw [List.dropWhile_cons, if_pos h] at hm
    have hlen : (t.dropWhile p).length ≤ t.length :=
      (List.dropWhile_sublist (p := p) (l := t)).length_le
    have := congrArg List.length hm
    simp at this
    omega
  · simpa using h

theorem dropWhile_eq_self_of_all (p : Char → Bool) (l : List Char)
    (h : ∀ c ∈ l, p c = false) : l.dropWhile p = l := by
  induction l with
  | nil => rfl
  | cons a t ih =>
      rw [List.dropWhile_cons, if_neg (by simp [h a (by simp)])]

theorem dropWhile_ne_nil_of_exists (p : Char → Bool) (l : List Char)
    (h : ∃ x ∈ l, p x = false) : l.dropWhile p ≠ [] := by
  induction l with
  | nil => simp at h
  | cons a t ih =>
      by_cases ha : p a
      · rw [List.dropWhile_cons, if_pos ha]
        apply ih
        obtain ⟨x, hx, hpx⟩ := h
        rcases List.mem_cons.mp hx with rfl | hx
        · rw [ha] at hpx; cases hpx
        · exact ⟨x, hx, hpx⟩
      · rw [List.dropWhile_cons, if_neg ha]
        simp

theorem dropWhile_eq_self_of_append (p : Char → Bool) (m t : List Char)
    (hn : (m ++ t).dropWhile p = m ++ t) : m.dropWhile p = m := by
  cases m with
  | nil => rfl
  | cons a m =>
      have ha : p a = false :=
        head_false_of_dropWhile_eq_self p a (m ++ t) (by simpa using hn)
      rw [List.dropWhile_cons, if_neg (by simp [ha])]

theorem trimChars_eq_self_of_all (l : List Char)
    (h : ∀ c ∈ l, isSpaceChar c = false) : trimChars l = l := by
  rw [trimChars, dropWhile_eq_self_of_all _ _ h,
    dropWhile_eq_self_of_all _ _ (by simpa using h), List.reverse_reverse]

theorem trimChars_decomp (l : List Char) :
    ∃ a b, l = a ++ trimChars l ++ b := by
  refine ⟨l.takeWhile isSpaceChar,
    ((l.dropWhile isSpaceChar).reverse.takeWhile isSpaceChar).reverse, ?_⟩
  rw [trimChars]
  conv_lhs => rw [← List.takeWhile_append_dropWhile (p := isSpaceChar) (l := l)]
  rw [List.append_assoc]
  congr 1
  conv_lhs =>
    rw [← List.reverse_reverse (l.dropWhile isSpaceChar),
      ← List.takeWhile_append_dropWhile (p := isSpaceChar)
        (l := (l.dropWhile isSpaceChar).reverse)]
  rw [List.reverse_append]

theorem mem_trimChars (c : Char) (l : List Char) (h : c ∈ trimChars l) : c ∈ l := by
  obtain ⟨a, b, hd⟩ := trimChars_decomp l
  rw [hd]
  simp [h]

theorem dropWhile_trimChars (l : List Char) :
    (trimChars l).dropWhile isSpaceChar = trimChars l := by
  have h1 : (l.dropWhile isSpaceChar).dropWhile isSpaceChar = l.dropWhile isSpaceChar :=
    dropWhile_dropWhile _ _
  have hsplit : l.dropWhile isSpaceChar
      = trimChars l ++ ((l.dropWhile isSpaceChar).reverse.takeWhile isSpaceChar).reverse := by
    rw [trimChars]
    conv_lhs =>
      rw [← List.reverse_reverse (l.dropWhile isSpaceChar),
        ← List.takeWhile_append_dropWhile (p := isSpaceChar)
          (l := (l.dropWhile isSpaceChar).reverse)]
    rw [List.reverse_append]
  exact dropWhile_eq_self_of_append _ _ _ (by rw [← hsplit]; exact h1)

theorem trimChars_idem (l : List Char) : trimChars (trimChars l) = trimChars l := by
  conv_lhs => rw [trimChars]
  rw [dropWhile_trimChars]
  have : (trimChars l).reverse.dropWhile isSpaceChar = (trimChars l).reverse := by
    rw [trimChars, List.reverse_reverse]
    exact dropWhile_dropWhile _ _
  rw [this, List.reverse_reverse]

theorem trimChars_head_false (a : Char) (t l : List Char)
    (h : trimChars l = a :: t) : isSpaceChar a = false := by
  have := dropWhile_trimChars l
  rw [h] at this
  exact head_false_of_dropWhile_eq_self _ _ _ this

theorem trimChars_cons_ne_nil (a : Char) (t : List Char)
    (h : isSpaceChar a = false) : trimChars (a :: t) ≠ [] := by
  rw [trimChars, List.dropWhile_cons, if_neg (by simp [h])]
  intro hcon
  have h2 : (a :: t).reverse.dropWhile isSpaceChar = [] := by
    have := congrArg List.reverse hcon
    simpa using this
  exact dropWhile_ne_nil_of_exists _ _ ⟨a, by simp, h⟩ h2

/-! ## Chunker: window shape -/

/-- Every window the chunk loop produces is non-empty, already
trimmed, and a contiguous slice of the rune sequence. -/
theorem chunkLoop_mem (runes : List Char) (size step : Nat) :
    ∀ fuel start w, w ∈ chunkLoop runes size step fuel start →
      w ≠ [] ∧ trimChars w = w ∧ ∃ a b, runes = a ++ w ++ b := by
  intro fuel
  induction fuel with
  | zero => intro start w hw; simp [chunkLoop] at hw
  | succ f ih =>
      intro start w hw
      rw [chunkLoop] at hw
      by_cases hlt : start < runes.length
      · rw [if_pos hlt] at hw
        simp only [] at hw
        have hrest : w ∈ (if start + size < runes.length then
            chunkLoop runes size step f (start + max 1 step) else []) →
            w ≠ [] ∧ trimChars w = w ∧ ∃ a b, runes = a ++ w ++ b := by
          intro hw2
          by_cases hmore : start + size < runes.length
          · rw [if_pos hmore] at hw2
            exact ih (start + max 1 step) w hw2
          · rw [if_neg hmore] at hw2
            simp at hw2
        by_cases hw0 : trimChars ((runes.drop start).take size) = []
        · rw [if_pos hw0] at hw
          exact hrest hw
        · rw [if_neg hw0] at hw
          rcases List.mem_cons.mp hw with rfl | hw2
          · refine ⟨hw0, trimChars_idem _, ?_⟩
            obtain ⟨a, b, hsl⟩ := trimChars_decomp ((runes.drop start).take size)
            refine ⟨runes.take start ++ a, b ++ (runes.drop start).drop size, ?_⟩
            conv_lhs =>
              rw [← List.take_append_drop start runes,
                ← List.take_append_drop size (runes.drop start), hsl]
            simp [List.append_assoc]
          · exact hrest hw2
      · rw [if_neg hlt] at hw
        simp at hw

/-- `chunkLoop_mem` carried through `chunkChars`. -/
theorem chunkChars_mem (l : List Char) (S O : Nat) (w : List Char)
    (hw : w ∈ chunkChars l S O) :
    w ≠ [] ∧ trimChars w = w ∧ ∃ a b, trimChars l = a ++ w ++ b :=
  chunkLoop_mem (trimChars l) S (S - O) (trimChars l).length 0 w hw

theorem stringMk_eq_empty_iff (l : List Char) : String.mk l = "" ↔ l = [] := by
  constructor
  · intro h
    exact congrArg String.data h
  · intro h
    rw [h]

/-- The chunk loop yields at least one window when it starts inside a
trimmed, non-empty rune sequence. -/
theorem chunkChars_eq_nil_iff (l : List Char) (S O : Nat) (hO : O < S) :
    chunkChars l S O = [] ↔ trimChars l = [] := by
  constructor
  · intro h
    by_contra hne
    obtain ⟨a, t, hrt⟩ : ∃ a t, trimChars l = a :: t := by
      cases htr : trimChars l with
      | nil => exact absurd htr hne
      | cons a t => exact ⟨a, t, rfl⟩
    obtain ⟨Sp, rfl⟩ : ∃ Sp, S = Sp + 1 := ⟨S - 1, by omega⟩
    rw [chunkChars] at h
    rw [hrt] at h
    rw [List.length_cons, chunkLoop, if_pos (by simp)] at h
    simp only [List.drop_zero, List.take_succ_cons] at h
    have hhead : isSpaceChar a = false := trimChars_head_false a t l hrt
    have hwne : trimChars (a :: t.take Sp) ≠ [] := trimChars_cons_ne_nil a _ hhead
    rw [if_neg hwne] at h
    exact List.cons_ne_nil _ _ h
  · intro h
    rw [chunkChars]
    simp only [h, List.length_nil]
    rfl

/-- C8. For every text and `O < S`: every window the Chunker produces
is non-empty and already trimmed, and is a contiguous run of whole
code points of the trimmed input (the Go code slices `[]rune`, so no
multi-byte character is ever split); and the output is empty exactly
when the input trims to nothing. -/
theorem c8_window_shape (text : String) (S O : Nat) (hO : O < S) :
    (∀ w ∈ chunkText text S O,
       w ≠ "" ∧ trimString w = w ∧ ∃ a b, trimChars text.data = a ++ w.data ++ b) ∧
    (chunkText text S O = [] ↔ trimString text = "") := by
  constructor
  · intro w hw
    rw [chunkText] at hw
    obtain ⟨wc, hwc, rfl⟩ := List.mem_map.mp hw
    obtain ⟨hne, htrim, a, b, hdecomp⟩ := chunkChars_mem text.data S O wc hwc
    refine ⟨?_, ?_, a, b, ?_⟩
    · intro hcon
      exact hne ((stringMk_eq_empty_iff wc).mp hcon)
    · rw [trimString]
      show String.mk (trimChars wc) = String.mk wc
      rw [htrim]
    · exact hdecomp
  · rw [chunkText, List.map_eq_nil_iff, chunkChars_eq_nil_iff text.data S O hO,
      trimString, stringMk_eq_empty_iff]

theorem c8_window_shape_witness :
    chunkText "hello world" 4 1 = [] ↔ trimString "hello world" = "" :=
  (c8_window_shape "hello world" 4 1 (by decide)).2

/-! ## Chunker: overlap reconstruction -/

/-- On a whitespace-free rune sequence, dropping the first `O` code
points of every window the loop produces from position `start` and
concatenating yields exactly the runes from position `start + O` on. -/
theorem chunkLoop_flatten_drop (runes : List Char) (S O : Nat) (hO : O < S)
    (hclean : ∀ c ∈ runes, isSpaceChar c = false) :
    ∀ fuel start, runes.length - start ≤ fuel → start < runes.length →
      ((chunkLoop runes S (S - O) fuel start).map (List.drop O)).flatten
        = runes.drop (start + O) := by
  intro fuel
  induction fuel with
  | zero => intro start h1 h2; omega
  | succ f ih =>
      intro start h1 h2
      have hwin : trimChars ((runes.drop start).take S) = (runes.drop start).take S :=
        trimChars_eq_self_of_all _ fun c hc =>
          hclean c (List.mem_of_mem_drop (List.mem_of_mem_take hc))
      have hne : (runes.drop start).take S ≠ [] := by
        intro hcon
        have := congrArg List.length hcon
        simp only [List.length_take, List.length_drop, List.length_nil] at this
        omega
      have hdropO : ((runes.drop start).take S).drop O
          = (runes.drop (start + O)).take (S - O) := by
        rw [List.drop_take, List.drop_drop]
      rw [chunkLoop, if_pos h2, hwin, if_neg hne]
      have hstep : max 1 (S - O) = S - O := by omega
      by_cases hmore : start + S < runes.length
      · rw [if_pos hmore, hstep]
        rw [List.map_cons, List.flatten_cons]
        have hih := ih (start + (S - O)) (by omega) (by omega)
        rw [hih, hdropO]
        have harith : start + (S - O) + O = start + O + (S - O) := by omega
        have hdd : (runes.drop (start + O)).drop (S - O)
            = runes.drop (start + O + (S - O)) :=
          List.drop_drop (S - O) (start + O) runes
        rw [harith, ← hdd, List.take_append_drop]
      · rw [if_neg hmore]
        rw [List.map_cons, List.map_nil, List.flatten_cons, List.flatten_nil,
          List.append_nil, hdropO]
        exact List.take_of_length_le (by simp [List.length_drop]; omega)

/-- On a text whose trimmed content has no whitespace, the Chunker's
windows reproduce the trimmed content once the `O`-sized overlaps are
removed. -/
theorem chunkChars_reconstruct (l : List Char) (S O : Nat) (hO : O < S)
    (hclean : ∀ c ∈ trimChars l, isSpaceChar c = false) :
    dropOverlapConcat O (chunkChars l S O) = trimChars l := by
  rw [chunkChars]
  cases hrt : trimChars l with
  | nil => rfl
  | cons a t =>
      rw [hrt] at hclean
      rw [List.length_cons, chunkLoop, if_pos (by simp)]
      have hwin : trimChars (((a :: t).drop 0).take S) = ((a :: t).drop 0).take S :=
        trimChars_eq_self_of_all _ fun c hc =>
          hclean c (List.mem_of_mem_drop (List.mem_of_mem_take hc))
      have hne : (((a :: t).drop 0).take S) ≠ [] := by
        intro hcon
        have := congrArg List.length hcon
        simp only [List.length_take, List.length_drop, List.length_nil,
          List.length_cons] at this
        omega
      rw [hwin, if_neg hne]
      have hstep : max 1 (S - O) = S - O := by omega
      by_cases hmore : 0 + S < (a :: t).length
      · rw [if_pos hmore, hstep, dropOverlapConcat]
        have hflat := chunkLoop_flatten_drop (a :: t) S O hO hclean t.length
          (0 + (S - O)) (by simp; omega) (by simp at hmore ⊢; omega)
        rw [hflat]
        have harith : 0 + (S - O) + O = S := by omega
        rw [harith, List.drop_zero, List.take_append_drop]
      · rw [if_neg hmore, dropOverlapConcat]
        rw [List.map_nil, List.flatten_nil, List.append_nil, List.drop_zero]
        exact List.take_of_length_le (by simp at hmore ⊢; omega)

/-- C7 (counterexample). The claimed round-trip fails as stated: for
the text `"a b"` with `S = 2`, `O = 1`, the Chunker trims each window,
so the space at the window boundary is lost and concatenating the
windows with the overlap removed yields `"a"`, not the trimmed
content `"a b"`. -/
theorem c7_counterexample :
    ¬ dropOverlapJoin 1 (chunkText "a b" 2 1) = trimString "a b" := by decide

/-- C7 (amended). On texts whose trimmed content contains no
whitespace — so the Chunker's per-window trimming removes nothing —
concatenating the windows with the `O`-sized overlaps removed
reproduces the trimmed content. -/
theorem c7_overlap_reconstruction (text : String) (S O : Nat) (hO : O < S)
    (hclean : ∀ c ∈ trimChars text.data, isSpaceChar c = false) :
    dropOverlapJoin O (chunkText text S O) = trimString text := by
  rw [dropOverlapJoin, chunkText, trimString]
  have hmaps : ((chunkChars text.data S O).map String.mk).map String.data
      = chunkChars text.data S O := by
    rw [List.map_map]
    exact List.map_id _
  rw [hmaps, chunkChars_reconstruct text.data S O hO hclean]

theorem c7_overlap_reconstruction_witness :
    dropOverlapJoin 1 (chunkText "abcdef" 3 1) = trimString "abcdef" :=
  c7_overlap_reconstruction "abcdef" 3 1 (by decide) (by decide)

/-! ## Similarity search and owner isolation -/

theorem mem_insertDesc (p a : ScoredPoint) (l : List ScoredPoint) :
    a ∈ insertDesc p l ↔ a = p ∨ a ∈ l := by
  induction l with
  | nil => simp [insertDesc]
  | cons q qs ih =>
      by_cases h : q.score ≤ p.score
      · simp [insertDesc, h]
      · simp [insertDesc, h, ih]
        tauto

theorem mem_sortByScoreDesc (a : ScoredPoint) (l : List ScoredPoint) :
    a ∈ sortByScoreDesc l ↔ a ∈ l := by
  induction l with
  | nil => simp [sortByScoreDesc]
  | cons q qs ih => simp [sortByScoreDesc, mem_insertDesc, ih]

/-- C1. Owner isolation: a similarity search issued with a non-empty
owner identifier `U` only returns points whose payload owner scope
(`user_id`) is the reserved shared scope `"admin"` or `U` itself,
because `Search` attaches a `should` filter on exactly those two
values whenever `userID` is non-empty. -/
theorem c1_owner_isolation (stored : List ScoredPoint) (limit : Nat)
    (U : String) (hU : U ≠ "") :
    ∀ p ∈ searchStore stored limit U, p.userId = "admin" ∨ p.userId = U := by
  intro p hp
  have hp1 : p ∈ sortByScoreDesc (stored.filter (matchesFilter (searchScopes U))) :=
    List.mem_of_mem_take hp
  have hp2 : p ∈ stored.filter (matchesFilter (searchScopes U)) :=
    (mem_sortByScoreDesc p _).mp hp1
  have hp3 : matchesFilter (searchScopes U) p = true := (List.mem_filter.mp hp2).2
  rw [searchScopes, if_neg hU] at hp3
  simpa [matchesFilter] using hp3

theorem c1_owner_isolation_witness :
    (⟨mkRat 7 10, "u1", "c"⟩ : ScoredPoint).userId = "admin" ∨
      (⟨mkRat 7 10, "u1", "c"⟩ : ScoredPoint).userId = "u1" :=
  c1_owner_isolation
    [⟨mkRat 1 2, "admin", "a"⟩, ⟨mkRat 9 10, "u2", "b"⟩, ⟨mkRat 7 10, "u1", "c"⟩]
    3 "u1" (by decide) ⟨mkRat 7 10, "u1", "c"⟩ (by decide)

/-! ## Retrieval compiler: boundary shortcut and context block -/

/-- C2. When every retrieved match scores below the threshold
(including the no-match case), `AskKnowledgeBase` returns exactly the
static boundary message and performs zero `StreamChat` calls. -/
theorem c2_boundary_no_inference (points : List ScoredPoint) (query : String)
    (h : ∀ p ∈ points, p.score < ragScoreThreshold) :
    askKnowledgeBase points query = .boundary ragBoundaryMessage ∧
      streamChatCalls (askKnowledgeBase points query) = 0 := by
  have hrel : relevantPoints points = [] := by
    rw [relevantPoints, List.filter_eq_nil_iff]
    intro p hp
    simpa using not_le.mpr (h p hp)
  rw [askKnowledgeBase, hrel]
  exact ⟨rfl, rfl⟩

theorem c2_boundary_no_inference_witness :
    askKnowledgeBase [⟨mkRat 1 10, "admin", "x"⟩, ⟨mkRat 29 100, "u1", "y"⟩] "q"
        = .boundary ragBoundaryMessage ∧
      streamChatCalls
        (askKnowledgeBase [⟨mkRat 1 10, "admin", "x"⟩, ⟨mkRat 29 100, "u1", "y"⟩] "q") = 0 :=
  c2_boundary_no_inference
    [⟨mkRat 1 10, "admin", "x"⟩, ⟨mkRat 29 100, "u1", "y"⟩] "q" (by decide)

theorem numberedEntries_length (idx : Nat) (ps : List ScoredPoint) :
    (numberedEntries idx ps).length = ps.length := by
  induction ps generalizing idx with
  | nil => simp [numberedEntries]
  | cons p ps ih => simp [numberedEntries, ih]

theorem numberedEntries_map_fst (idx : Nat) (ps : List ScoredPoint) :
    (numberedEntries idx ps).map Prod.fst = List.range' idx ps.length := by
  induction ps generalizing idx with
  | nil => simp [numberedEntries]
  | cons p ps ih => simp [numberedEntries, List.range', ih]

/-- C5. With at least one retrieved match at or above the threshold,
`AskKnowledgeBase` makes exactly one inference call whose system
prompt is built from the filtered matches, and that context block has
at most `ragTopK` entries, only matches scoring at or above the
threshold, and contiguous numbering starting at `[1]`. -/
theorem c5_context_bounded (points : List ScoredPoint) (query : String)
    (hlen : points.length ≤ ragTopK)
    (hsome : ∃ p ∈ points, ragScoreThreshold ≤ p.score) :
    askKnowledgeBase points query
        = .inference [⟨"system", buildSystemPrompt (relevantPoints points)⟩,
            ⟨"user", query⟩] ∧
    (contextEntries (relevantPoints points)).length ≤ ragTopK ∧
    (∀ p ∈ relevantPoints points, ragScoreThreshold ≤ p.score) ∧
    (contextEntries (relevantPoints points)).map Prod.fst
        = List.range' 1 (contextEntries (relevantPoints points)).length := by
  obtain ⟨p, hp, hps⟩ := hsome
  have hmem : p ∈ relevantPoints points :=
    List.mem_filter.mpr ⟨hp, by simpa using hps⟩
  have hne : relevantPoints points ≠ [] := List.ne_nil_of_mem hmem
  refine ⟨?_, ?_, ?_, ?_⟩
  · rw [askKnowledgeBase]
    simp [List.isEmpty_iff, hne]
  · rw [contextEntries, numberedEntries_length]
    exact le_trans (List.length_filter_le _ points) hlen
  · intro q hq
    simpa using (List.mem_filter.mp hq).2
  · rw [contextEntries, numberedEntries_map_fst, numberedEntries_length]

theorem c5_context_bounded_witness :
    askKnowledgeBase [⟨mkRat 1 2, "admin", "hello"⟩] "q"
        = .inference
            [⟨"system", buildSystemPrompt (relevantPoints [⟨mkRat 1 2, "admin", "hello"⟩])⟩,
              ⟨"user", "q"⟩] ∧
    (contextEntries (relevantPoints [⟨mkRat 1 2, "admin", "hello"⟩])).length ≤ ragTopK ∧
    (contextEntries (relevantPoints [⟨mkRat 1 2, "admin", "hello"⟩])).map Prod.fst
        = List.range' 1 (contextEntries (relevantPoints [⟨mkRat 1 2, "admin", "hello"⟩])).length := by
  have h := c5_context_bounded [⟨mkRat 1 2, "admin", "hello"⟩] "q" (by decide)
    ⟨⟨mkRat 1 2, "admin", "hello"⟩, by decide, by decide⟩
  exact ⟨h.1, h.2.1, h.2.2.2⟩

/-! ## Conversational endpoint: anonymous caller defaulting -/

/-- C10. When the request's `user_id` is absent (Go zero value `""`)
or whitespace-only, the handler passes the literal `"default"` onward,
so the similarity search always runs with a non-empty owner scope and
its filter is `admin`-or-`default`. -/
theorem c10_default_user (raw : String) (h : trimString raw = "") :
    resolveUserID raw = "default" ∧ resolveUserID raw ≠ "" ∧
      searchScopes (resolveUserID raw) = some ["admin", "default"] := by
  have h1 : resolveUserID raw = "default" := by
    rw [resolveUserID]
    simp [h]
  refine ⟨h1, ?_, ?_⟩
  · rw [h1]; decide
  · rw [h1]; decide

theorem c10_default_user_witness :
    resolveUserID " \t " = "default" ∧ resolveUserID " \t " ≠ "" ∧
      searchScopes (resolveUserID " \t ") = some ["admin", "default"] :=
  c10_default_user " \t " (by decide)

/-! ## Agent loop: helper lemmas -/

theorem mem_textEvents (chunks : List LlmChunk) (e : AgentEvent)
    (he : e ∈ textEvents chunks) : ∃ s, e = .text s := by
  induction chunks with
  | nil => simp [textEvents] at he
  | cons c cs ih =>
      cases c with
      | text s =>
          simp only [textEvents, List.filterMap_cons] at he ih
          rcases List.mem_cons.mp he with h | h
          · exact ⟨s, h⟩
          · exact ih h
      | toolCall n a =>
          simp only [textEvents, List.filterMap_cons] at he ih
          exact ih he

theorem mem_streamSummaryEvents (summary : Except String (List LlmChunk))
    (e : AgentEvent) (he : e ∈ streamSummaryEvents summary) :
    (∃ s, e = .text s) ∨ ∃ m, e = .error m := by
  cases summary with
  | error m =>
      simp only [streamSummaryEvents, List.mem_singleton] at he
      exact Or.inr ⟨_, he⟩
  | ok chunks => exact Or.inl (mem_textEvents chunks e he)

theorem textEvents_filter_tool (chunks : List LlmChunk) :
    (textEvents chunks).filter isToolEvent = [] := by
  rw [List.filter_eq_nil_iff]
  intro e he
  obtain ⟨s, rfl⟩ := mem_textEvents chunks e he
  simp [isToolEvent, isToolCallEv, isToolDoneEv]

theorem textEvents_countP_error (chunks : List LlmChunk) :
    (textEvents chunks).countP isErrorEv = 0 := by
  rw [List.countP_eq_zero]
  intro e he
  obtain ⟨s, rfl⟩ := mem_textEvents chunks e he
  simp [isErrorEv]

theorem streamSummaryEvents_filter_tool (summary : Except String (List LlmChunk)) :
    (streamSummaryEvents summary).filter isToolEvent = [] := by
  cases summary with
  | error m => simp [streamSummaryEvents, isToolEvent, isToolCallEv, isToolDoneEv]
  | ok chunks => exact textEvents_filter_tool chunks

theorem streamSummaryEvents_countP_toolCall (summary : Except String (List LlmChunk)) :
    (streamSummaryEvents summary).countP isToolCallEv = 0 := by
  rw [List.countP_eq_zero]
  intro e he
  rcases mem_streamSummaryEvents summary e he with ⟨s, rfl⟩ | ⟨m, rfl⟩ <;>
    simp [isToolCallEv]

theorem streamSummaryEvents_countP_toolDone (summary : Except String (List LlmChunk)) :
    (streamSummaryEvents summary).countP isToolDoneEv = 0 := by
  rw [List.countP_eq_zero]
  intro e he
  rcases mem_streamSummaryEvents summary e he with ⟨s, rfl⟩ | ⟨m, rfl⟩ <;>
    simp [isToolDoneEv]

/-- A run over a prefix of pure text chunks forwards them as `Text`
events and continues unchanged on the rest of the stream. -/
theorem runLoop_texts_append (store : String → String → Int → Except String Int)
    (summary : Except String (List LlmChunk)) (pre rest : List LlmChunk)
    (hpre : ∀ c ∈ pre, ∃ s, c = LlmChunk.text s) :
    runLoop store summary (pre ++ rest)
      = (textEvents pre ++ (runLoop store summary rest).1,
         (runLoop store summary rest).2) := by
  induction pre with
  | nil => simp [textEvents]
  | cons c cs ih =>
      obtain ⟨s, rfl⟩ := hpre c (by simp)
      have ih2 := ih fun c hc => hpre c (by simp [hc])
      simp [runLoop, textEvents, List.filterMap_cons, ih2]

/-- A payload whose `title` is absent, or a string that is empty after
trimming, fails validation. -/
theorem validateCreateTaskArgs_title_err (raw : RawArgs)
    (h : raw.title = none ∨ ∃ s, raw.title = some (.jstr s) ∧ trimString s = "") :
    ∃ e, validateCreateTaskArgs raw = .error e := by
  have htitle : ∃ s, unmarshalString raw.title = .ok s ∧ trimString s = "" := by
    rcases h with h | ⟨s, h, hs⟩
    · exact ⟨"", by rw [h]; rfl, rfl⟩
    · exact ⟨s, by rw [h]; rfl, hs⟩
  obtain ⟨s, hts, hse⟩ := htitle
  cases hd : unmarshalString raw.description with
  | error e => exact ⟨e, by simp [validateCreateTaskArgs, hts, hd]⟩
  | ok d =>
      cases hp : unmarshalInt raw.priority with
      | error e => exact ⟨e, by simp [validateCreateTaskArgs, hts, hd, hp]⟩
      | ok pr =>
          exact ⟨"'title' is required and must be non-empty",
            by simp [validateCreateTaskArgs, hts, hd, hp, hse]⟩

/-! ## Agent loop: the three event-sequence claims -/

/-- C3. For a turn whose (first) create-task tool call validates and
whose store write succeeds, the emitted events contain exactly one
`ToolCall` followed by exactly one `ToolDone`, and the `ToolDone`
carries the identifier the store's `CreateTask` returned. -/
theorem c3_toolcall_then_tooldone (store : String → String → Int → Except String Int)
    (summary : Except String (List LlmChunk)) (pre post : List LlmChunk)
    (name : String) (raw : RawArgs) (args : CreateTaskArgs) (taskID : Int)
    (hpre : ∀ c ∈ pre, ∃ s, c = LlmChunk.text s)
    (hval : validateCreateTaskArgs raw = .ok args)
    (hstore : store args.title args.description args.priority = .ok taskID) :
    ((runLoop store summary (pre ++ .toolCall name raw :: post)).1).filter isToolEvent
      = [.toolCall name args, .toolDone name taskID] := by
  rw [runLoop_texts_append store summary pre _ hpre]
  simp only [List.filter_append, textEvents_filter_tool, List.nil_append]
  simp [runLoop, hval, hstore, isToolEvent, isToolCallEv, isToolDoneEv,
    streamSummaryEvents_filter_tool]

theorem c3_toolcall_then_tooldone_witness :
    ((runLoop (fun _ _ _ => .ok 7) (.ok [.text "Done!"])
        ([.text "Creating it."] ++
          .toolCall "create_task" ⟨some (.jstr "Buy milk"), none, some (.jint 1)⟩ :: [])).1).filter
        isToolEvent
      = [.toolCall "create_task" ⟨"Buy milk", "", 1⟩, .toolDone "create_task" 7] :=
  c3_toolcall_then_tooldone (fun _ _ _ => .ok 7) (.ok [.text "Done!"])
    [.text "Creating it."] [] "create_task"
    ⟨some (.jstr "Buy milk"), none, some (.jint 1)⟩ ⟨"Buy milk", "", 1⟩ 7
    (by simp) rfl rfl

/-- C6. For a turn whose tool-call payload has a missing or
trim-empty `title`, the loop emits exactly one `Error` event, no
`ToolCall` and no `ToolDone`, and performs no store call. -/
theorem c6_missing_title (store : String → String → Int → Except String Int)
    (summary : Except String (List LlmChunk)) (pre post : List LlmChunk)
    (name : String) (raw : RawArgs)
    (hpre : ∀ c ∈ pre, ∃ s, c = LlmChunk.text s)
    (htitle : raw.title = none ∨ ∃ s, raw.title = some (.jstr s) ∧ trimString s = "") :
    ((runLoop store summary (pre ++ .toolCall name raw :: post)).1).countP isErrorEv = 1 ∧
    ((runLoop store summary (pre ++ .toolCall name raw :: post)).1).filter isToolEvent = [] ∧
    (runLoop store summary (pre ++ .toolCall name raw :: post)).2 = 0 := by
  obtain ⟨e, hval⟩ := validateCreateTaskArgs_title_err raw htitle
  rw [runLoop_texts_append store summary pre _ hpre]
  refine ⟨?_, ?_, ?_⟩
  · simp [runLoop, hval, List.countP_append, textEvents_countP_error,
      List.countP_cons, isErrorEv]
  · simp [runLoop, hval, List.filter_append, textEvents_filter_tool,
      isToolEvent, isToolCallEv, isToolDoneEv]
  · simp [runLoop, hval]

theorem c6_missing_title_witness :
    ((runLoop (fun _ _ _ => .ok 7) (.ok [])
        ([] ++ .toolCall "create_task" ⟨none, none, some (.jint 1)⟩ :: [])).1).countP
        isErrorEv = 1 ∧
    ((runLoop (fun _ _ _ => .ok 7) (.ok [])
        ([] ++ .toolCall "create_task" ⟨none, none, some (.jint 1)⟩ :: [])).1).filter
        isToolEvent = [] ∧
    (runLoop (fun _ _ _ => .ok 7) (.ok [])
        ([] ++ .toolCall "create_task" ⟨none, none, some (.jint 1)⟩ :: [])).2 = 0 :=
  c6_missing_title (fun _ _ _ => .ok 7) (.ok []) [] [] "create_task"
    ⟨none, none, some (.jint 1)⟩ (by simp) (Or.inl rfl)

theorem runLoop_countP_toolCall_le (store : String → String → Int → Except String Int)
    (summary : Except String (List LlmChunk)) (chunks : List LlmChunk) :
    ((runLoop store summary chunks).1).countP isToolCallEv ≤ 1 := by
  induction chunks with
  | nil => simp [runLoop]
  | cons c cs ih =>
      cases c with
      | text s => simpa [runLoop, List.countP_cons, isToolCallEv] using ih
      | toolCall name raw =>
          cases hval : validateCreateTaskArgs raw with
          | error e => simp [runLoop, hval, List.countP_cons, isToolCallEv]
          | ok args =>
              cases hstore : store args.title args.description args.priority with
              | error e => simp [runLoop, hval, hstore, List.countP_cons, isToolCallEv]
              | ok taskID =>
                  simp [runLoop, hval, hstore, List.countP_cons, isToolCallEv,
                    streamSummaryEvents_countP_toolCall]

theorem runLoop_countP_toolDone_le (store : String → String → Int → Except String Int)
    (summary : Except String (List LlmChunk)) (chunks : List LlmChunk) :
    ((runLoop store summary chunks).1).countP isToolDoneEv ≤ 1 := by
  induction chunks with
  | nil => simp [runLoop]
  | cons c cs ih =>
      cases c with
      | text s => simpa [runLoop, List.countP_cons, isToolDoneEv] using ih
      | toolCall name raw =>
          cases hval : validateCreateTaskArgs raw with
          | error e => simp [runLoop, hval, List.countP_cons, isToolDoneEv]
          | ok args =>
              cases hstore : store args.title args.description args.priority with
              | error e => simp [runLoop, hval, hstore, List.countP_cons, isToolDoneEv]
              | ok taskID =>
                  simp [runLoop, hval, hstore, List.countP_cons, isToolDoneEv,
                    streamSummaryEvents_countP_toolDone]

/-- C9. Whatever the first-turn stream yields (any number of tool-call
fragments) and whatever the store and summary do, one agentic turn
emits at most one `ToolCall` and at most one `ToolDone` (the loop
returns after the first tool execution), and the second-turn summary
stream forwards nothing but `Text` events. -/
theorem c9_at_most_one_pair (store : String → String → Int → Except String Int)
    (summary : Except String (List LlmChunk)) (chunks cl : List LlmChunk) :
    ((runLoop store summary chunks).1).countP isToolCallEv ≤ 1 ∧
    ((runLoop store summary chunks).1).countP isToolDoneEv ≤ 1 ∧
    (streamSummaryEvents (.ok cl)).countP (fun e => !(isTextEv e)) = 0 := by
  refine ⟨runLoop_countP_toolCall_le store summary chunks,
    runLoop_countP_toolDone_le store summary chunks, ?_⟩
  rw [List.countP_eq_zero]
  intro e he
  obtain ⟨s, rfl⟩ := mem_textEvents cl e he
  simp [isTextEv]

/-! ## Tool-argument validation versus the declared tool schema -/

/-- C4. The `create_task` tool schema declares `priority` as the
string enum `low | medium | high` (default `medium`, as does the
`tasks` table), but `validateCreateTaskArgs` unmarshals `priority`
into a Go `int` and accepts exactly `0..3`: the schema-conformant
payload `{title: "Submit report", priority: "high"}` is rejected
(unmarshal failure), while the out-of-schema integer `2` is accepted
and an absent priority defaults to `0`, not to the middle enum
value. -/
theorem c4_schema_contradiction :
    ("high" ∈ createTaskPriorityEnum ∧
      validateCreateTaskArgs ⟨some (.jstr "Submit report"), none, some (.jstr "high")⟩
        = .error "unmarshal args") ∧
    (validateCreateTaskArgs ⟨some (.jstr "Submit report"), none, some (.jint 2)⟩
        = .ok ⟨"Submit report", "", 2⟩) ∧
    (tasksTablePriorityDefault = "medium" ∧
      validateCreateTaskArgs ⟨some (.jstr "Submit report"), none, none⟩
        = .ok ⟨"Submit report", "", 0⟩) :=
  ⟨⟨by decide, rfl⟩, rfl, rfl, rfl⟩

end Assistant
